import Mathlib

/-!
Verification development for the inkbattle backend (room phase engine,
guess evaluator, session layer, game-end rewards).

Each definition is a shallow embedding of a function from the source
tree (src/sockets/roundPhases.js, src/sockets/socket.js,
src/sockets/gameHelpers.js, src/sockets/userSocketMap.js).  JavaScript
numbers are modelled as Int (for integer-valued columns and
timestamps) or Rat (where the source performs real division);
nullable columns are Option; SQL row sets are lists of records.
-/

namespace InkBattle

/-- The roundPhase column values, plus the null state. -/
inductive Phase where
  | nullPhase
  | selecting_drawer
  | choosing_word
  | drawing
  | reveal
  | interval
  | internal_processing
  | interval_ending
deriving DecidableEq, Repr

/-- The gameMode column: "1v1" (free-for-all) or "team_vs_team". -/
inductive GameMode where
  | onevone
  | team_vs_team
deriving DecidableEq, Repr

/-- Team assignment for team_vs_team mode. -/
inductive Team where
  | blue
  | orange
deriving DecidableEq, Repr

/-- The room fields touched by phase transitions
(src/models/room.js; the subset read or written by transitionPhase
callers). -/
structure RoomRec where
  roundPhase : Phase
  roundPhaseEndTime : Option Int
  roundRemainingTime : Option Int
  currentDrawerId : Option Nat
  currentWord : Option String
  currentWordOptions : Option (List String)
deriving DecidableEq, Repr

/-- A partial update object, as passed to Room.update: a field set to
some v is written, a field set to none is left untouched. -/
structure RoomUpdate where
  roundPhase : Option Phase
  roundPhaseEndTime : Option (Option Int)
  roundRemainingTime : Option (Option Int)
  currentDrawerId : Option (Option Nat)
  currentWord : Option (Option String)
  currentWordOptions : Option (Option (List String))
deriving DecidableEq, Repr

/-- An update object that touches nothing. -/
def RoomUpdate.empty : RoomUpdate :=
  ⟨none, none, none, none, none, none⟩

/-- Apply an update object to a room row (Sequelize Room.update
semantics restricted to one row). -/
def applyUpdate (u : RoomUpdate) (r : RoomRec) : RoomRec :=
  { roundPhase := u.roundPhase.getD r.roundPhase
    roundPhaseEndTime := u.roundPhaseEndTime.getD r.roundPhaseEndTime
    roundRemainingTime := u.roundRemainingTime.getD r.roundRemainingTime
    currentDrawerId := u.currentDrawerId.getD r.currentDrawerId
    currentWord := u.currentWord.getD r.currentWord
    currentWordOptions := u.currentWordOptions.getD r.currentWordOptions }

/-- transitionPhase (src/sockets/roundPhases.js lines 47 to 59): a
compare-and-update on the room row.  Room.update runs with a where
clause requiring roundPhase to equal fromPhase; when no row matches it
returns null, otherwise the updated row is re-read and returned.  The
result pairs the returned value with the room row after the call. -/
def transitionPhase (db : RoomRec) (fromPhase : Phase) (u : RoomUpdate) :
    Option RoomRec × RoomRec :=
  if db.roundPhase = fromPhase then
    let r := applyUpdate u db
    (some r, r)
  else
    (none, db)

/-- C1: transitionPhase applies the updates and returns the post-image
exactly when the current roundPhase equals fromPhase, and otherwise
leaves every field of the room unmodified and returns null. -/
theorem transitionPhase_cas (db : RoomRec) (fromPhase : Phase) (u : RoomUpdate) :
    (db.roundPhase = fromPhase →
      transitionPhase db fromPhase u = (some (applyUpdate u db), applyUpdate u db)) ∧
    (db.roundPhase ≠ fromPhase →
      transitionPhase db fromPhase u = (none, db)) := by
  constructor
  · intro h
    simp [transitionPhase, h]
  · intro h
    simp [transitionPhase, h]

/-- Witness for C1: concrete evaluations of both branches of the
compare-and-update. -/
theorem transitionPhase_cas_witness :
    transitionPhase
        ⟨Phase.drawing, some 1000, some 80, some 1, some "tree", none⟩
        Phase.drawing
        ⟨some Phase.reveal, some (some 2000), some (some 7), none, none, none⟩
      = (some ⟨Phase.reveal, some 2000, some 7, some 1, some "tree", none⟩,
         ⟨Phase.reveal, some 2000, some 7, some 1, some "tree", none⟩) ∧
    transitionPhase
        ⟨Phase.reveal, some 1000, some 80, some 1, some "tree", none⟩
        Phase.drawing
        ⟨some Phase.reveal, some (some 2000), some (some 7), none, none, none⟩
      = (none, ⟨Phase.reveal, some 1000, some 80, some 1, some "tree", none⟩) := by
  constructor
  · exact (transitionPhase_cas
      ⟨Phase.drawing, some 1000, some 80, some 1, some "tree", none⟩
      Phase.drawing
      ⟨some Phase.reveal, some (some 2000), some (some 7), none, none, none⟩).1 rfl
  · exact (transitionPhase_cas
      ⟨Phase.reveal, some 1000, some 80, some 1, some "tree", none⟩
      Phase.drawing
      ⟨some Phase.reveal, some (some 2000), some (some 7), none, none, none⟩).2 (by decide)

/-! GuessEvaluator: the submit_guess socket handler
(src/sockets/socket.js lines 1409 to 1687, src/sockets/gameHelpers.js). -/

/-- One room_participants row, restricted to the fields the
submit_guess handler reads or writes. -/
structure GParticipant where
  userId : Nat
  team : Option Team
  isDrawer : Bool
  isActive : Bool
  score : Int
  hasGuessedThisRound : Bool
  pointsUpdatedAt : Int
deriving DecidableEq, Repr

/-- The room fields the submit_guess handler reads. -/
structure GRoom where
  gameMode : GameMode
  roundPhase : Phase
  currentWord : Option String
  currentDrawerId : Option Nat
  roundPhaseEndTime : Option Int
  roundRemainingTime : Option Int
  maxPointsPerRound : Int
deriving DecidableEq, Repr

/-- Socket events emitted by the submit_guess handler. -/
inductive GEvent where
  | guessResult (msg : String)
  | incorrectGuess
  | correctGuess (points : Int)
  | scoreUpdate (userId : Nat) (score : Int)
  | roomParticipants
deriving DecidableEq, Repr

/-- Result of one submit_guess call: the room row after the call, the
participant rows after the call, the emitted events in order, and
whether endDrawingPhase was invoked. -/
structure GOutcome where
  room : GRoom
  parts : List GParticipant
  events : List GEvent
  endedDrawing : Bool
deriving DecidableEq, Repr

/-- Guess normalization: (guess).toString().trim().toLowerCase(),
implemented over the character list (drop whitespace at both ends,
then lowercase each character). -/
def normalizeGuess (s : String) : String :=
  String.mk
    (((s.data.dropWhile Char.isWhitespace).reverse.dropWhile
        Char.isWhitespace).reverse.map Char.toLower)

/-- Math.ceil(a / b) on JavaScript numbers, for integer inputs. -/
def ceilDivQ (a b : Int) : Int := ⌈(a : ℚ) / (b : ℚ)⌉

theorem ceilDivQ_natCast (a : Int) (d : Nat) :
    ceilDivQ a (d : Int) = -((-a) / (d : Int)) := by
  unfold ceilDivQ
  have h : ((a : ℚ) / ((d : Int) : ℚ)) = -(((-a : Int) : ℚ) / ((d : Nat) : ℚ)) := by
    push_cast
    ring
  rw [h, Int.ceil_neg, Rat.floor_intCast_div_natCast]

/-- Evaluation rule: Math.ceil(a / b) for a positive integer divisor
equals negated floor division of the negation. -/
theorem ceilDivQ_eq_neg_ediv (a b : Int) (hb : 0 ≤ b) :
    ceilDivQ a b = -((-a) / b) := by
  obtain ⟨d, rfl⟩ : ∃ d : Nat, b = (d : Int) :=
    ⟨b.toNat, (Int.toNat_of_nonneg hb).symm⟩
  exact ceilDivQ_natCast a d

/-- calculateGuessReward (src/sockets/gameHelpers.js lines 27 to 29):
Math.min(Math.ceil(remainingTime / 8), maxPoints). -/
def calculateGuessReward (remainingTime maxPoints : Int) : Int :=
  min (ceilDivQ remainingTime 8) maxPoints

/-- The per-member effect of a correct-guess award: add the reward,
refresh points_updated_at, and mark hasGuessedThisRound. -/
def awardMember (reward now : Int) (m : GParticipant) : GParticipant :=
  { m with
    score := m.score + reward
    pointsUpdatedAt := now
    hasGuessedThisRound := true }

/-- The row-locked team transaction (src/sockets/socket.js lines 1513
to 1540): the locked set is the active participants of the team; if
any of them is already marked as having guessed, nothing changes,
otherwise every one of them is awarded and marked. -/
def teamAwardTransaction (reward now : Int) (team : List GParticipant) :
    List GParticipant :=
  if team.any (·.hasGuessedThisRound) then team
  else team.map (awardMember reward now)

/-- A whole round of correct team guesses: each list entry is the
(reward, timestamp) pair of one correct guess from the team, in
arrival order; each runs the row-locked transaction. -/
def roundTeamAwards : List (Int × Int) → List GParticipant → List GParticipant
  | [], team => team
  | (r, t) :: rest, team => roundTeamAwards rest (teamAwardTransaction r t team)

/-- A rejection outcome: the handler emits one guess_result event and
changes nothing. -/
def rejectGuess (room : GRoom) (parts : List GParticipant) (msg : String) :
    GOutcome :=
  ⟨room, parts, [GEvent.guessResult msg], false⟩

/-- The individual award write of the 1v1 branch: update the one row
whose userId matches the guesser. -/
def soloAward (reward now : Int) (uid : Nat) (parts : List GParticipant) :
    List GParticipant :=
  parts.map (fun q => if q.userId = uid then awardMember reward now q else q)

/-- The team-transaction write: update every active row of the team. -/
def teamAward (reward now : Int) (tm : Option Team)
    (parts : List GParticipant) : List GParticipant :=
  parts.map (fun q =>
    if q.team = tm ∧ q.isActive = true then awardMember reward now q else q)

/-- The handler body after all input gates have passed: compare the
normalized guess with the word, then either run the award logic
(lines 1495 to 1653) or emit incorrect_guess plus guess_result
(lines 1654 to 1682). -/
def processGuess (now : Int) (room : GRoom) (parts : List GParticipant)
    (uid : Nat) (p : GParticipant) (w : String) (guess : String) : GOutcome :=
  if normalizeGuess guess = normalizeGuess w then
    if now > room.roundPhaseEndTime.getD 0 then
      rejectGuess room parts "round_ended"
    else
      let remaining : Int :=
        match room.roundPhaseEndTime with
        | some e => max 0 (ceilDivQ (e - now) 1000)
        | none => room.roundRemainingTime.getD 0
      let reward := calculateGuessReward remaining room.maxPointsPerRound
      match room.gameMode with
      | GameMode.team_vs_team =>
        let locked := parts.filter
          (fun q => decide (q.team = p.team ∧ q.isActive = true))
        let parts1 :=
          if locked.any (·.hasGuessedThisRound) then parts
          else teamAward reward now p.team parts
        let updates := (parts1.filter
            (fun q => decide (q.team = p.team ∧ q.isActive = true))).map
          (fun m => GEvent.scoreUpdate m.userId m.score)
        ⟨room, parts1,
          updates ++ [GEvent.correctGuess reward, GEvent.roomParticipants],
          true⟩
      | GameMode.onevone =>
        let parts1 := soloAward reward now uid parts
        let eligibleCount := (parts1.filter
          (fun q => decide (q.isActive = true ∧ q.isDrawer = false))).length
        let guessedCount := (parts1.filter
          (fun q => decide (q.isActive = true ∧ q.hasGuessedThisRound = true))).length
        ⟨room, parts1,
          [GEvent.scoreUpdate uid (p.score + reward),
           GEvent.correctGuess reward, GEvent.roomParticipants],
          decide (eligibleCount = 0 ∨ guessedCount ≥ eligibleCount)⟩
  else
    ⟨room, parts, [GEvent.incorrectGuess, GEvent.guessResult "incorrect"], false⟩

/-- The submit_guess handler (src/sockets/socket.js lines 1409 to
1687).  The input gates run in source order: drawing phase, word set,
authentication, participant row found, non-drawer, not already
guessed, and in team mode the guesser must share the current drawer
team. -/
def submitGuess (now : Int) (room : GRoom) (parts : List GParticipant)
    (auth : Option Nat) (guess : String) : GOutcome :=
  if room.roundPhase = Phase.drawing then
    match room.currentWord with
    | none => rejectGuess room parts "no_active_word"
    | some w =>
      if w = "" then rejectGuess room parts "no_active_word"
      else
        match auth with
        | none => rejectGuess room parts "not_authenticated"
        | some uid =>
          match parts.find? (fun q => q.userId == uid) with
          | none => rejectGuess room parts "not_in_room"
          | some p =>
            if p.isDrawer = true then rejectGuess room parts "drawer_cannot_guess"
            else if p.hasGuessedThisRound = true then
              rejectGuess room parts "already_guessed"
            else
              match room.gameMode with
              | GameMode.team_vs_team =>
                match room.currentDrawerId.bind
                    (fun d => parts.find? (fun q => q.userId == d)) with
                | none => rejectGuess room parts "wrong_team"
                | some dr =>
                  if p.team = dr.team then processGuess now room parts uid p w guess
                  else rejectGuess room parts "wrong_team"
              | GameMode.onevone => processGuess now room parts uid p w guess
  else rejectGuess room parts "not_drawing_phase"

/-- Modelled after the spec scoring sentence: reward equals
min of ceil(remaining/8) and maxPointsPerRound, where remaining equals
max(0, ceil((roundPhaseEndTime - now)/1000)). -/
def specGuessReward (endTimeMs nowMs maxPoints : Int) : Int :=
  min (ceilDivQ (max 0 (ceilDivQ (endTimeMs - nowMs) 1000)) 8) maxPoints

/-- Sum of the scores of a participant list. -/
def totalScore (l : List GParticipant) : Int := (l.map (·.score)).sum

theorem teamAwardTransaction_of_fresh (r t : Int) (team : List GParticipant)
    (h : ∀ m ∈ team, m.hasGuessedThisRound = false) :
    teamAwardTransaction r t team = team.map (awardMember r t) := by
  unfold teamAwardTransaction
  rw [if_neg]
  simp only [List.any_eq_true, not_exists, not_and]
  intro x hx
  simp [h x hx]

theorem teamAwardTransaction_of_flagged (r t : Int) (team : List GParticipant)
    (h : ∀ m ∈ team, m.hasGuessedThisRound = true) :
    teamAwardTransaction r t team = team := by
  cases team with
  | nil => rfl
  | cons a tl =>
    unfold teamAwardTransaction
    rw [if_pos]
    simp only [List.any_cons, Bool.or_eq_true]
    exact Or.inl (h a (List.mem_cons_self a tl))

theorem roundTeamAwards_of_flagged (gs : List (Int × Int))
    (team : List GParticipant)
    (h : ∀ m ∈ team, m.hasGuessedThisRound = true) :
    roundTeamAwards gs team = team := by
  induction gs with
  | nil => rfl
  | cons g rest ih =>
    obtain ⟨r, t⟩ := g
    show roundTeamAwards rest (teamAwardTransaction r t team) = team
    rw [teamAwardTransaction_of_flagged r t team h, ih]

theorem mem_map_awardMember_flagged (r t : Int) (team : List GParticipant) :
    ∀ m ∈ team.map (awardMember r t), m.hasGuessedThisRound = true := by
  intro m hm
  obtain ⟨q, _, rfl⟩ := List.mem_map.mp hm
  rfl

theorem totalScore_map_awardMember (r t : Int) (team : List GParticipant) :
    totalScore (team.map (awardMember r t)) =
      totalScore team + r * team.length := by
  induction team with
  | nil => simp [totalScore]
  | cons a tl ih =>
    unfold totalScore at *
    simp only [List.map_cons, List.sum_cons, List.length_cons] at *
    rw [ih]
    push_cast
    show a.score + r + (_ + r * (tl.length : Int)) = _
    ring

/-- C2: in team mode, the sum of score increments a team receives from
submit_guess over one round is 0 or exactly the first-correct reward
times the number of active team members; the first correct guess
awards every locked (active) team member exactly once and sets
hasGuessedThisRound for all of them, and every later correct guess
from that team in the same round changes nothing. -/
theorem submitGuess_team_award_once (gs : List (Int × Int))
    (team : List GParticipant)
    (hfresh : ∀ m ∈ team, m.hasGuessedThisRound = false) :
    (totalScore (roundTeamAwards gs team) - totalScore team = 0 ∨
      ∃ r t rest, gs = (r, t) :: rest ∧
        totalScore (roundTeamAwards gs team) - totalScore team =
          r * team.length) ∧
    (∀ r t rest, gs = (r, t) :: rest →
      roundTeamAwards gs team = team.map (awardMember r t)) := by
  have hmain : ∀ r t (rest : List (Int × Int)),
      roundTeamAwards ((r, t) :: rest) team = team.map (awardMember r t) := by
    intro r t rest
    show roundTeamAwards rest (teamAwardTransaction r t team) = _
    rw [teamAwardTransaction_of_fresh r t team hfresh,
      roundTeamAwards_of_flagged rest _ (mem_map_awardMember_flagged r t team)]
  constructor
  · cases gs with
    | nil => exact Or.inl (by simp [roundTeamAwards])
    | cons g rest =>
      obtain ⟨r, t⟩ := g
      refine Or.inr ⟨r, t, rest, rfl, ?_⟩
      rw [hmain r t rest, totalScore_map_awardMember]
      ring
  · intro r t rest hgs
    subst hgs
    exact hmain r t rest

/-- Witness for C2: a two-member fresh team, a first correct guess
with reward 8 and a second with reward 5; the round yields exactly one
award of 8 per member. -/
theorem submitGuess_team_award_once_witness :
    (∀ m ∈ ([⟨10, some Team.orange, false, true, 0, false, 0⟩,
             ⟨11, some Team.orange, false, true, 3, false, 0⟩] :
        List GParticipant), m.hasGuessedThisRound = false) ∧
    roundTeamAwards [(8, 100), (5, 200)]
        [⟨10, some Team.orange, false, true, 0, false, 0⟩,
         ⟨11, some Team.orange, false, true, 3, false, 0⟩] =
      [⟨10, some Team.orange, false, true, 8, true, 100⟩,
       ⟨11, some Team.orange, false, true, 11, true, 100⟩] := by
  refine ⟨by decide, ?_⟩
  have h := (submitGuess_team_award_once [(8, 100), (5, 200)]
    [⟨10, some Team.orange, false, true, 0, false, 0⟩,
     ⟨11, some Team.orange, false, true, 3, false, 0⟩] (by decide)).2
      8 100 [(5, 200)] rfl
  rw [h]
  decide

theorem find?_map_eq_map_find? {α : Type _} (g : α → α) (P : α → Bool)
    (hg : ∀ a, P (g a) = P a) (l : List α) :
    (l.map g).find? P = (l.find? P).map g := by
  induction l with
  | nil => rfl
  | cons a tl ih =>
    by_cases h : P a = true
    · rw [List.map_cons, List.find?_cons_of_pos _ ((hg a).trans h),
        List.find?_cons_of_pos _ h]
      rfl
    · rw [List.map_cons, List.find?_cons_of_neg _ (by rw [hg a]; exact h),
        List.find?_cons_of_neg _ h, ih]

theorem find?_soloAward (r n : Int) (uid : Nat) (parts : List GParticipant) :
    (soloAward r n uid parts).find? (fun q => q.userId == uid) =
      (parts.find? (fun q => q.userId == uid)).map
        (fun q => if q.userId = uid then awardMember r n q else q) := by
  apply find?_map_eq_map_find?
  intro a
  by_cases h : a.userId = uid
  · simp [h, awardMember]
  · simp [h]

theorem find?_teamAward (r n : Int) (tm : Option Team) (uid : Nat)
    (parts : List GParticipant) :
    (teamAward r n tm parts).find? (fun q => q.userId == uid) =
      (parts.find? (fun q => q.userId == uid)).map
        (fun q => if q.team = tm ∧ q.isActive = true then
          awardMember r n q else q) := by
  apply find?_map_eq_map_find?
  intro a
  by_cases h : a.team = tm ∧ a.isActive = true
  · simp [h, awardMember]
  · simp [h]

/-- C3: a correct guess accepted during the drawing phase awards the
guesser exactly min(ceil(remaining/8), maxPointsPerRound) points,
where remaining = max(0, ceil((roundPhaseEndTime - now)/1000)) at
processing time; the award also stamps pointsUpdatedAt and marks the
guesser as having guessed. -/
theorem submitGuess_reward_formula
    (now : Int) (room : GRoom) (parts : List GParticipant)
    (uid : Nat) (p : GParticipant) (w : String) (guess : String) (e : Int)
    (hphase : room.roundPhase = Phase.drawing)
    (hword : room.currentWord = some w)
    (hw : ¬(w = ""))
    (hfind : parts.find? (fun q => q.userId == uid) = some p)
    (hdrawer : p.isDrawer = false)
    (hguessed : p.hasGuessedThisRound = false)
    (hactive : p.isActive = true)
    (hteam : room.gameMode = GameMode.team_vs_team →
      (∃ d dr, room.currentDrawerId = some d ∧
        parts.find? (fun q => q.userId == d) = some dr ∧ p.team = dr.team) ∧
      ∀ q ∈ parts, q.team = p.team → q.isActive = true →
        q.hasGuessedThisRound = false)
    (hcorrect : normalizeGuess guess = normalizeGuess w)
    (hend : room.roundPhaseEndTime = some e)
    (hnow : now ≤ e) :
    (submitGuess now room parts (some uid) guess).parts.find?
        (fun q => q.userId == uid) =
      some { p with
        score := p.score + specGuessReward e now room.maxPointsPerRound
        pointsUpdatedAt := now
        hasGuessedThisRound := true } := by
  have huid : p.userId = uid := by
    have h := List.find?_some hfind
    simpa using h
  have hnotlate : ¬(now > e) := not_lt.mpr hnow
  cases hm : room.gameMode with
  | onevone =>
    simp only [submitGuess, hphase, hword, hfind, hdrawer, hguessed, hm,
      if_true, if_neg hw, Bool.false_eq_true, ite_false]
    simp only [processGuess, hcorrect, hend, hm, Option.getD_some,
      if_true, if_neg hnotlate]
    simp only [find?_soloAward, hfind, Option.map_some', if_pos huid]
    simp [awardMember, calculateGuessReward, specGuessReward, hdrawer]
  | team_vs_team =>
    obtain ⟨⟨d, dr, hd, hdr, hsame⟩, hfresh⟩ := hteam hm
    have hlocked : (parts.filter
        (fun q => decide (q.team = p.team ∧ q.isActive = true))).any
        (·.hasGuessedThisRound) = false := by
      rw [Bool.eq_false_iff]
      intro hany
      obtain ⟨x, hx, hflag⟩ := List.any_eq_true.mp hany
      obtain ⟨hxmem, hxcond⟩ := List.mem_filter.mp hx
      obtain ⟨hxteam, hxact⟩ := of_decide_eq_true hxcond
      rw [hfresh x hxmem hxteam hxact] at hflag
      exact Bool.false_ne_true hflag
    simp only [submitGuess, hphase, hword, hfind, hdrawer, hguessed, hm,
      if_true, if_neg hw, Bool.false_eq_true, ite_false, hd, Option.some_bind,
      hdr, if_pos hsame]
    simp only [processGuess, hcorrect, hend, hm, Option.getD_some,
      if_true, if_neg hnotlate, hlocked, Bool.false_eq_true, ite_false]
    simp only [find?_teamAward, hfind, Option.map_some',
      if_pos (And.intro rfl hactive)]
    simp [awardMember, calculateGuessReward, specGuessReward, hdrawer, hactive]

/-- Witness for C3: solo room, word tree, phase ends at t=100000 ms,
guess arrives at t=50000 ms, maxPointsPerRound 20; remaining is 50 s
and the reward is min(ceil(50/8), 20) = 7. -/
theorem submitGuess_reward_formula_witness :
    specGuessReward 100000 50000 20 = 7 ∧
    ((submitGuess 50000
        ⟨GameMode.onevone, Phase.drawing, some "tree", some 1,
          some 100000, some 80, 20⟩
        [⟨1, none, true, true, 0, false, 0⟩,
         ⟨2, none, false, true, 0, false, 0⟩]
        (some 2) " TREE ").parts.find? (fun q => q.userId == 2) =
      some ⟨2, none, false, true, 0 + specGuessReward 100000 50000 20,
        true, 50000⟩) := by
  constructor
  · have h1 : ceilDivQ (100000 - 50000) 1000 = 50 := by
      rw [ceilDivQ_eq_neg_ediv (100000 - 50000) 1000 (by decide)]
      decide
    have h2 : ceilDivQ 50 8 = 7 := by
      rw [ceilDivQ_eq_neg_ediv 50 8 (by decide)]
      decide
    rw [specGuessReward, h1]
    norm_num [h2]
  · exact submitGuess_reward_formula 50000
      ⟨GameMode.onevone, Phase.drawing, some "tree", some 1,
        some 100000, some 80, 20⟩
      [⟨1, none, true, true, 0, false, 0⟩,
       ⟨2, none, false, true, 0, false, 0⟩]
      2 ⟨2, none, false, true, 0, false, 0⟩ "tree" " TREE " 100000
      rfl rfl (by decide) (by decide) rfl rfl rfl
      (fun h => absurd h (by decide)) (by decide) rfl (by decide)

/-- C6: in team mode a submit_guess from a participant who passes the
earlier gates but is not on the current drawer team is rejected with a
wrong_team guess_result; no participant row changes, the room row is
untouched, and no phase transition is triggered. -/
theorem submitGuess_wrong_team
    (now : Int) (room : GRoom) (parts : List GParticipant)
    (uid : Nat) (p : GParticipant) (w : String) (guess : String)
    (d : Nat) (dr : GParticipant)
    (hphase : room.roundPhase = Phase.drawing)
    (hword : room.currentWord = some w)
    (hw : ¬(w = ""))
    (hfind : parts.find? (fun q => q.userId == uid) = some p)
    (hdrawer : p.isDrawer = false)
    (hguessed : p.hasGuessedThisRound = false)
    (hmode : room.gameMode = GameMode.team_vs_team)
    (hd : room.currentDrawerId = some d)
    (hdr : parts.find? (fun q => q.userId == d) = some dr)
    (hteamne : ¬(p.team = dr.team)) :
    submitGuess now room parts (some uid) guess =
      ⟨room, parts, [GEvent.guessResult "wrong_team"], false⟩ := by
  simp only [submitGuess, hphase, hword, hfind, hdrawer, hguessed, hmode, hd,
    Option.some_bind, hdr, if_true, if_neg hw, Bool.false_eq_true, ite_false,
    if_neg hteamne]
  rfl

/-- Witness for C6: a blue drawer, an orange guesser with the correct
word; the guess is rejected with wrong_team and nothing changes. -/
theorem submitGuess_wrong_team_witness :
    submitGuess 50000
        ⟨GameMode.team_vs_team, Phase.drawing, some "tree", some 1,
          some 100000, some 80, 20⟩
        [⟨1, some Team.blue, true, true, 0, false, 0⟩,
         ⟨2, some Team.orange, false, true, 0, false, 0⟩]
        (some 2) "tree" =
      ⟨⟨GameMode.team_vs_team, Phase.drawing, some "tree", some 1,
          some 100000, some 80, 20⟩,
       [⟨1, some Team.blue, true, true, 0, false, 0⟩,
        ⟨2, some Team.orange, false, true, 0, false, 0⟩],
       [GEvent.guessResult "wrong_team"], false⟩ :=
  submitGuess_wrong_team 50000
    ⟨GameMode.team_vs_team, Phase.drawing, some "tree", some 1,
      some 100000, some 80, 20⟩
    [⟨1, some Team.blue, true, true, 0, false, 0⟩,
     ⟨2, some Team.orange, false, true, 0, false, 0⟩]
    2 ⟨2, some Team.orange, false, true, 0, false, 0⟩ "tree" "tree"
    1 ⟨1, some Team.blue, true, true, 0, false, 0⟩
    rfl rfl (by decide) rfl rfl rfl rfl rfl rfl (by decide)

/-- C9: a submit_guess whose normalized guess differs from the
normalized current word leaves every participant row and the room row
unchanged, triggers no phase transition, and emits exactly the
incorrect_guess broadcast followed by the guess_result reply; in
particular the guesser stays eligible to guess again. -/
theorem submitGuess_incorrect_frame
    (now : Int) (room : GRoom) (parts : List GParticipant)
    (uid : Nat) (p : GParticipant) (w : String) (guess : String)
    (hphase : room.roundPhase = Phase.drawing)
    (hword : room.currentWord = some w)
    (hw : ¬(w = ""))
    (hfind : parts.find? (fun q => q.userId == uid) = some p)
    (hdrawer : p.isDrawer = false)
    (hguessed : p.hasGuessedThisRound = false)
    (hteam : room.gameMode = GameMode.team_vs_team →
      ∃ d dr, room.currentDrawerId = some d ∧
        parts.find? (fun q => q.userId == d) = some dr ∧ p.team = dr.team)
    (hne : ¬(normalizeGuess guess = normalizeGuess w)) :
    submitGuess now room parts (some uid) guess =
      ⟨room, parts,
        [GEvent.incorrectGuess, GEvent.guessResult "incorrect"], false⟩ := by
  cases hm : room.gameMode with
  | onevone =>
    simp only [submitGuess, hphase, hword, hfind, hdrawer, hguessed, hm,
      if_true, if_neg hw, Bool.false_eq_true, ite_false]
    simp only [processGuess, if_neg hne]
  | team_vs_team =>
    obtain ⟨d, dr, hd, hdr, hsame⟩ := hteam hm
    simp only [submitGuess, hphase, hword, hfind, hdrawer, hguessed, hm, hd,
      Option.some_bind, hdr, if_true, if_neg hw, Bool.false_eq_true,
      ite_false, if_pos hsame]
    simp only [processGuess, if_neg hne]

/-- Witness for C9: a wrong guess (cat versus tree) in a solo room is
rejected with incorrect_guess plus guess_result and changes nothing. -/
theorem submitGuess_incorrect_frame_witness :
    submitGuess 50000
        ⟨GameMode.onevone, Phase.drawing, some "tree", some 1,
          some 100000, some 80, 20⟩
        [⟨1, none, true, true, 0, false, 0⟩,
         ⟨2, none, false, true, 0, false, 0⟩]
        (some 2) "cat" =
      ⟨⟨GameMode.onevone, Phase.drawing, some "tree", some 1,
          some 100000, some 80, 20⟩,
       [⟨1, none, true, true, 0, false, 0⟩,
        ⟨2, none, false, true, 0, false, 0⟩],
       [GEvent.incorrectGuess, GEvent.guessResult "incorrect"], false⟩ :=
  submitGuess_incorrect_frame 50000
    ⟨GameMode.onevone, Phase.drawing, some "tree", some 1,
      some 100000, some 80, 20⟩
    [⟨1, none, true, true, 0, false, 0⟩,
     ⟨2, none, false, true, 0, false, 0⟩]
    2 ⟨2, none, false, true, 0, false, 0⟩ "tree" "cat"
    rfl rfl (by decide) rfl rfl rfl
    (fun h => absurd h (by decide)) (by decide)

/-! The endDrawingPhase drawer reward
(src/sockets/roundPhases.js lines 657 to 753). -/

/-- Participant fields read or written by endDrawingPhase.  Scores are
rationals here because the drawer reward performs JavaScript real
division (20 times guessedCount over eligibleGuessers). -/
structure DParticipant where
  userId : Nat
  score : ℚ
  hasGuessedThisRound : Bool
  isActive : Bool
  pointsUpdatedAt : Int
deriving DecidableEq, Repr

/-- Room fields read by endDrawingPhase. -/
structure DRoom where
  gameMode : GameMode
  roundPhase : Phase
  currentDrawerId : Option Nat
  maxPointsPerRound : ℚ
deriving DecidableEq, Repr

/-- Result of endDrawingPhase: room and participant rows after the
call, and whether the drawing-to-reveal transition was won. -/
structure DOutcome where
  room : DRoom
  parts : List DParticipant
  proceeded : Bool
deriving DecidableEq, Repr

/-- endDrawingPhase: atomically transition drawing to reveal (losers
return immediately); count rows marked hasGuessedThisRound (no
isActive filter in the source query); look up the drawer row by
currentDrawerId; in 1v1 mode with at least one guesser award the
drawer min(20 * G / max(1, N - 1), maxPointsPerRound) where N counts
active participants; team mode never awards the drawer. -/
def endDrawingPhase (now : Int) (room : DRoom) (parts : List DParticipant) :
    DOutcome :=
  if room.roundPhase = Phase.drawing then
    let room1 := { room with roundPhase := Phase.reveal }
    let guessedCount : Nat := (parts.filter (·.hasGuessedThisRound)).length
    let activeCount : Nat := (parts.filter (·.isActive)).length
    let eligibleGuessers : Nat := max 1 (activeCount - 1)
    match room1.currentDrawerId.bind
        (fun dId => parts.find? (fun q => q.userId == dId)) with
    | some drawer =>
      if 0 < guessedCount ∧ room1.gameMode ≠ GameMode.team_vs_team then
        let drawerPoints : ℚ :=
          min ((20 * (guessedCount : ℚ)) / (eligibleGuessers : ℚ))
            room.maxPointsPerRound
        ⟨room1,
          parts.map (fun q =>
            if q.userId = drawer.userId then
              { q with score := q.score + drawerPoints, pointsUpdatedAt := now }
            else q),
          true⟩
      else ⟨room1, parts, true⟩
    | none => ⟨room1, parts, true⟩
  else ⟨room, parts, false⟩

/-- C4: when the drawing phase ends with at least one correct guesser,
in 1v1 mode the drawer score rises by min(20 G / max(1, N - 1),
maxPointsPerRound) with G the rows marked as having guessed and N the
active participants, and in team mode no participant row changes. -/
theorem endDrawingPhase_drawer_reward
    (now : Int) (room : DRoom) (parts : List DParticipant)
    (dId : Nat) (drawer : DParticipant)
    (hphase : room.roundPhase = Phase.drawing)
    (hd : room.currentDrawerId = some dId)
    (hfind : parts.find? (fun q => q.userId == dId) = some drawer)
    (hG : 0 < (parts.filter (·.hasGuessedThisRound)).length) :
    (room.gameMode = GameMode.onevone →
      (endDrawingPhase now room parts).parts.find?
          (fun q => q.userId == dId) =
        some { drawer with
          score := drawer.score +
            min ((20 * (((parts.filter (·.hasGuessedThisRound)).length : ℕ) : ℚ)) /
                ((max 1 ((parts.filter (·.isActive)).length - 1) : ℕ) : ℚ))
              room.maxPointsPerRound
          pointsUpdatedAt := now }) ∧
    (room.gameMode = GameMode.team_vs_team →
      (endDrawingPhase now room parts).parts = parts) := by
  have hdid : drawer.userId = dId := by
    have h := List.find?_some hfind
    simpa using h
  constructor
  · intro hm
    have hcond : 0 < (parts.filter (·.hasGuessedThisRound)).length ∧
        ({ room with roundPhase := Phase.reveal } : DRoom).gameMode ≠
          GameMode.team_vs_team := by
      refine ⟨hG, ?_⟩
      simp [hm]
    simp only [endDrawingPhase, hphase, hd, Option.some_bind, hfind, if_true,
      if_pos hcond]
    rw [find?_map_eq_map_find?
      (fun q => if q.userId = drawer.userId then
        { q with
          score := q.score +
            min ((20 * (((parts.filter (·.hasGuessedThisRound)).length : ℕ) : ℚ)) /
                ((max 1 ((parts.filter (·.isActive)).length - 1) : ℕ) : ℚ))
              room.maxPointsPerRound
          pointsUpdatedAt := now }
        else q)
      (fun q => q.userId == dId)
      (by
        intro a
        by_cases h : a.userId = drawer.userId
        · simp [h]
        · simp [h])
      parts, hfind]
    simp [hdid]
  · intro hm
    have hcond : ¬(0 < (parts.filter (·.hasGuessedThisRound)).length ∧
        ({ room with roundPhase := Phase.reveal } : DRoom).gameMode ≠
          GameMode.team_vs_team) := by
      intro hcontra
      exact hcontra.2 (by simpa using hm)
    simp only [endDrawingPhase, hphase, hd, Option.some_bind, hfind, if_true,
      if_neg hcond]

/-- Witness for C4: three active players, the drawer and one correct
guesser; G = 1, N = 3, so the drawer earns min(20/2, 20) = 10. -/
theorem endDrawingPhase_drawer_reward_witness :
    ((1 : ℚ) * 20 / 2 = 10 ∧
      min ((20 : ℚ) * 1 / 2) 20 = 10) ∧
    (endDrawingPhase 90000
        ⟨GameMode.onevone, Phase.drawing, some 1, 20⟩
        [⟨1, 0, false, true, 0⟩, ⟨2, 7, true, true, 40000⟩,
         ⟨3, 0, false, true, 0⟩]).parts.find? (fun q => q.userId == 1) =
      some ⟨1, 0 +
        min ((20 *
            ((([⟨1, 0, false, true, 0⟩, ⟨2, 7, true, true, 40000⟩,
                ⟨3, 0, false, true, 0⟩] :
              List DParticipant).filter (·.hasGuessedThisRound)).length : ℚ)) /
          ((max 1 ((([⟨1, 0, false, true, 0⟩, ⟨2, 7, true, true, 40000⟩,
                ⟨3, 0, false, true, 0⟩] :
              List DParticipant).filter (·.isActive)).length - 1) : ℕ) : ℚ))
          20, false, true, 90000⟩ := by
  constructor
  · constructor
    · norm_num
    · norm_num
  · exact (endDrawingPhase_drawer_reward 90000
      ⟨GameMode.onevone, Phase.drawing, some 1, 20⟩
      [⟨1, 0, false, true, 0⟩, ⟨2, 7, true, true, 40000⟩,
       ⟨3, 0, false, true, 0⟩]
      1 ⟨1, 0, false, true, 0⟩
      rfl rfl rfl (by decide)).1 rfl

/-! The handleChoosingWordTimeout function
(src/sockets/roundPhases.js lines 838 to 901): the choosing_word
timeout handler used by the resume and rebuild paths. -/

/-- Participant fields read or written by the choosing_word timeout
path. -/
structure CWParticipant where
  userId : Nat
  eliminationCount : Int
  isDrawer : Bool
  isActive : Bool
deriving DecidableEq, Repr

/-- Events emitted by the choosing_word timeout path. -/
inductive CWEvent where
  | drawerSkipped (remainingEliminations : Int)
  | playerRemoved (userId : Nat)
deriving DecidableEq, Repr

/-- Result of handleChoosingWordTimeout: room and participant rows
after the call, emitted events, and whether drawer rotation continued
(selectDrawerAndStartWordChoice was invoked). -/
structure CWOutcome where
  room : RoomRec
  parts : List CWParticipant
  events : List CWEvent
  rotationContinued : Bool
deriving DecidableEq, Repr

/-- handleChoosingWordTimeout: claim the row optimistically by the
compare-and-update choosing_word to _internal_processing (losers
return); bail out if no current drawer id; continue rotation if the
drawer row is missing; otherwise decrement eliminationCount (floored
at 0) and clear isDrawer, emit drawer_skipped; at zero remove the
participant (isActive false, player_removed) and continue rotation;
otherwise run transitionPhase from choosing_word to selecting_drawer
clearing drawer and word fields, returning without rotating when that
compare-and-update misses. -/
def handleChoosingWordTimeout (room : RoomRec) (parts : List CWParticipant) :
    CWOutcome :=
  match transitionPhase room Phase.choosing_word
      ⟨some Phase.internal_processing, none, none, none, none, none⟩ with
  | (none, db) => ⟨db, parts, [], false⟩
  | (some r1, _) =>
    match r1.currentDrawerId with
    | none => ⟨r1, parts, [], false⟩
    | some dId =>
      match parts.find? (fun q => q.userId == dId) with
      | none => ⟨r1, parts, [], true⟩
      | some participant =>
        let newElim := max 0 (participant.eliminationCount - 1)
        let parts1 := parts.map (fun q =>
          if q.userId = participant.userId then
            { q with eliminationCount := newElim, isDrawer := false }
          else q)
        if newElim ≤ 0 then
          let parts2 := parts1.map (fun q =>
            if q.userId = participant.userId then { q with isActive := false }
            else q)
          ⟨r1, parts2,
            [CWEvent.drawerSkipped newElim,
             CWEvent.playerRemoved participant.userId], true⟩
        else
          match (transitionPhase r1 Phase.choosing_word
              ⟨some Phase.selecting_drawer, none, none,
                some none, some none, some none⟩).1 with
          | none => ⟨r1, parts1, [CWEvent.drawerSkipped newElim], false⟩
          | some r2 => ⟨r2, parts1, [CWEvent.drawerSkipped newElim], true⟩

/-- C7: evaluation at a concrete failing input.  A room in
choosing_word whose drawer (eliminationCount 3) lets the timer expire:
the handler decrements the count to 2, but the subsequent
transitionPhase expects choosing_word while the row was already moved
to _internal_processing by the handler itself, so the compare-and-
update misses: the room is left in _internal_processing with the
drawer and word-option fields uncleared and rotation does not
continue, instead of transitioning back to selecting_drawer. -/
theorem handleChoosingWordTimeout_stuck :
    handleChoosingWordTimeout
        ⟨Phase.choosing_word, some 100000, some 10, some 1, none,
          some ["apple", "banana", "cat"]⟩
        [⟨1, 3, true, true⟩, ⟨2, 3, false, true⟩] =
      ⟨⟨Phase.internal_processing, some 100000, some 10, some 1, none,
          some ["apple", "banana", "cat"]⟩,
       [⟨1, 2, false, true⟩, ⟨2, 3, false, true⟩],
       [CWEvent.drawerSkipped 2], false⟩ := by
  decide

/-! SessionLayer: the user to socket map
(src/sockets/userSocketMap.js, src/sockets/socket.js lines 187 to 204
and 2211 to 2222). -/

/-- Process state: the userId to socketId map (modelled as an
association list, first match wins like Map.get) and the set of live
socket ids. -/
structure SessState where
  userMap : List (Nat × Nat)
  live : List Nat
deriving DecidableEq, Repr

/-- Map.get: the socket registered for a user, if any. -/
def lookupSocket (m : List (Nat × Nat)) (u : Nat) : Option Nat :=
  (m.find? (fun e => e.1 == u)).map (·.2)

/-- Map.set: replace the existing binding for the key or append. -/
def setSocketForUser : List (Nat × Nat) → Nat → Nat → List (Nat × Nat)
  | [], u, s => [(u, s)]
  | e :: rest, u, s =>
    if e.1 = u then (u, s) :: rest else e :: setSocketForUser rest u s

/-- Map.delete: drop the binding for the key. -/
def deleteUser (m : List (Nat × Nat)) (u : Nat) : List (Nat × Nat) :=
  m.eraseP (fun e => e.1 == u)

/-- The connection handler for an authenticated socket (socket.js
lines 195 to 204): read the previous registration; when a different
socket is registered, force-disconnect it; then register the new
socket and mark it live. -/
def evictLive (st : SessState) (u s : Nat) : List Nat :=
  match lookupSocket st.userMap u with
  | some p => if p ≠ s then st.live.erase p else st.live
  | none => st.live

def connectStep (st : SessState) (u s : Nat) : SessState :=
  ⟨setSocketForUser st.userMap u s,
    if s ∈ evictLive st u s then evictLive st u s
    else s :: evictLive st u s⟩

/-- The disconnect handler (socket.js lines 2213 to 2222): delete the
map entry only when it still names the disconnecting socket; the
socket leaves the live set either way. -/
def disconnectStep (st : SessState) (uOpt : Option Nat) (s : Nat) :
    SessState :=
  let m1 :=
    match uOpt with
    | some u =>
      if lookupSocket st.userMap u = some s then deleteUser st.userMap u
      else st.userMap
    | none => st.userMap
  ⟨m1, st.live.erase s⟩

/-- Session events: authenticated connection, anonymous connection,
disconnect (carrying the userId cached on the socket, if any). -/
inductive SessEvent where
  | connect (u s : Nat)
  | connectAnon (s : Nat)
  | disconnect (uOpt : Option Nat) (s : Nat)
deriving DecidableEq, Repr

def sessStep (st : SessState) : SessEvent → SessState
  | SessEvent.connect u s => connectStep st u s
  | SessEvent.connectAnon s =>
    ⟨st.userMap, if s ∈ st.live then st.live else s :: st.live⟩
  | SessEvent.disconnect uOpt s => disconnectStep st uOpt s

/-- The process starts with an empty map and no live sockets. -/
def initSess : SessState := ⟨[], []⟩

def runSess (evs : List SessEvent) : SessState := evs.foldl sessStep initSess

/-- Well-formedness carried by every reachable state: the map has at
most one binding per user and the live list has no duplicates. -/
def goodSess (st : SessState) : Prop :=
  (st.userMap.map Prod.fst).Nodup ∧ st.live.Nodup

theorem mem_keys_setSocketForUser (m : List (Nat × Nat)) (u s x : Nat) :
    x ∈ (setSocketForUser m u s).map Prod.fst ↔
      x = u ∨ x ∈ m.map Prod.fst := by
  induction m with
  | nil => simp [setSocketForUser]
  | cons e rest ih =>
    by_cases h : e.1 = u
    · simp [setSocketForUser, h]
    · simp only [setSocketForUser, if_neg h, List.map_cons, List.mem_cons, ih]
      tauto

theorem keys_nodup_setSocketForUser (m : List (Nat × Nat)) (u s : Nat)
    (h : (m.map Prod.fst).Nodup) :
    ((setSocketForUser m u s).map Prod.fst).Nodup := by
  induction m with
  | nil => simp [setSocketForUser]
  | cons e rest ih =>
    simp only [List.map_cons, List.nodup_cons] at h
    by_cases he : e.1 = u
    · simp only [setSocketForUser, if_pos he, List.map_cons, List.nodup_cons]
      exact ⟨he ▸ h.1, h.2⟩
    · simp only [setSocketForUser, if_neg he, List.map_cons, List.nodup_cons]
      refine ⟨?_, ih h.2⟩
      rw [mem_keys_setSocketForUser]
      rintro (rfl | hmem)
      · exact he rfl
      · exact h.1 hmem

theorem keys_nodup_deleteUser (m : List (Nat × Nat)) (u : Nat)
    (h : (m.map Prod.fst).Nodup) :
    ((deleteUser m u).map Prod.fst).Nodup :=
  ((List.eraseP_sublist m).map Prod.fst).nodup h

theorem lookupSocket_setSocketForUser_self (m : List (Nat × Nat)) (u s : Nat) :
    lookupSocket (setSocketForUser m u s) u = some s := by
  induction m with
  | nil => simp [setSocketForUser, lookupSocket]
  | cons e rest ih =>
    by_cases h : e.1 = u
    · simp [setSocketForUser, h, lookupSocket]
    · simp only [setSocketForUser, if_neg h, lookupSocket, List.find?_cons]
      have hb : (e.1 == u) = false := by simpa using h
      rw [hb]
      exact ih

theorem goodSess_step (st : SessState) (ev : SessEvent) (h : goodSess st) :
    goodSess (sessStep st ev) := by
  obtain ⟨hmap, hlive⟩ := h
  cases ev with
  | connect u s =>
    refine ⟨keys_nodup_setSocketForUser st.userMap u s hmap, ?_⟩
    have hlive1 : (evictLive st u s).Nodup := by
      unfold evictLive
      cases lookupSocket st.userMap u with
      | none => exact hlive
      | some p =>
        by_cases hps : p ≠ s
        · simpa [hps] using hlive.erase p
        · simpa [hps] using hlive
    show (connectStep st u s).live.Nodup
    unfold connectStep
    by_cases hs : s ∈ evictLive st u s
    · simpa [hs] using hlive1
    · simp only [if_neg hs, List.nodup_cons]
      exact ⟨hs, hlive1⟩
  | connectAnon s =>
    refine ⟨hmap, ?_⟩
    by_cases hs : s ∈ st.live
    · simpa [sessStep, hs] using hlive
    · simp only [sessStep, if_neg hs, List.nodup_cons]
      exact ⟨hs, hlive⟩
  | disconnect uOpt s =>
    refine ⟨?_, hlive.erase s⟩
    cases uOpt with
    | none => exact hmap
    | some u =>
      by_cases hu : lookupSocket st.userMap u = some s
      · simpa [disconnectStep, sessStep, hu] using
          keys_nodup_deleteUser st.userMap u hmap
      · simpa [disconnectStep, sessStep, hu] using hmap

theorem goodSess_foldl (evs : List SessEvent) (st : SessState)
    (h : goodSess st) : goodSess (evs.foldl sessStep st) := by
  induction evs generalizing st with
  | nil => exact h
  | cons ev rest ih => exact ih (sessStep st ev) (goodSess_step st ev h)

/-- C5: (a) in every reachable session state each userId has at most
one binding in the user to socket map; (b) an authenticated connection
evicts the previously registered socket from the live set before the
new registration becomes current; (c) a disconnect whose socket no
longer matches the registration leaves the map untouched. -/
theorem sessionLayer_single_session (evs : List SessEvent) :
    (((runSess evs).userMap.map Prod.fst).Nodup ∧
      (runSess evs).live.Nodup) ∧
    (∀ st : SessState, ∀ u s p : Nat, st.live.Nodup →
      lookupSocket st.userMap u = some p → p ≠ s →
      p ∉ (connectStep st u s).live ∧
        lookupSocket (connectStep st u s).userMap u = some s) ∧
    (∀ st : SessState, ∀ u s : Nat,
      lookupSocket st.userMap u ≠ some s →
      (disconnectStep st (some u) s).userMap = st.userMap) := by
  refine ⟨goodSess_foldl evs initSess ⟨List.nodup_nil, List.nodup_nil⟩,
    ?_, ?_⟩
  · intro st u s p hlive hprev hps
    constructor
    · have h1 : evictLive st u s = st.live.erase p := by
        unfold evictLive
        rw [hprev]
        simp [hps]
      show p ∉ (connectStep st u s).live
      unfold connectStep
      rw [h1]
      have hnotin : p ∉ st.live.erase p := by
        intro hc
        exact ((hlive.mem_erase_iff).mp hc).1 rfl
      by_cases hs : s ∈ st.live.erase p
      · simpa [hs] using hnotin
      · simp only [if_neg hs, List.mem_cons]
        rintro (rfl | hc)
        · exact hps rfl
        · exact hnotin hc
    · exact lookupSocket_setSocketForUser_self st.userMap u s
  · intro st u s hne
    simp [disconnectStep, if_neg hne]

/-- Witness for C5: user 7 reconnects from socket 100 to socket 200;
socket 100 is evicted from the live set and the map now names 200; a
late disconnect of 100 does not clear the new registration. -/
theorem sessionLayer_single_session_witness :
    ((100 ∉ (connectStep ⟨[(7, 100)], [100]⟩ 7 200).live ∧
      lookupSocket (connectStep ⟨[(7, 100)], [100]⟩ 7 200).userMap 7 =
        some 200) ∧
     (disconnectStep ⟨[(7, 200)], [200]⟩ (some 7) 100).userMap =
       [(7, 200)]) ∧
    ((runSess [SessEvent.connect 7 100, SessEvent.connect 7 200,
        SessEvent.disconnect (some 7) 100]).userMap.map Prod.fst).Nodup := by
  refine ⟨⟨?_, ?_⟩, ?_⟩
  · exact (sessionLayer_single_session []).2.1 ⟨[(7, 100)], [100]⟩ 7 200 100
      (by decide) (by decide) (by decide)
  · exact (sessionLayer_single_session []).2.2 ⟨[(7, 200)], [200]⟩ 7 100
      (by decide)
  · exact (sessionLayer_single_session
      [SessEvent.connect 7 100, SessEvent.connect 7 200,
        SessEvent.disconnect (some 7) 100]).1.1

/-! The endGame 1v1 branch
(src/sockets/gameHelpers.js lines 80 to 292): final ranking and coin
rewards. -/

/-- The fields the ranking sort reads: score and the high-precision
points_updated_at tie-break timestamp. -/
structure RankEntry where
  userId : Nat
  score : Int
  time : Int
deriving DecidableEq, Repr

/-- The sort comparator of the 1v1 branch: score descending, then
points_updated_at ascending. -/
def soloBefore (a b : RankEntry) : Prop :=
  b.score < a.score ∨ (a.score = b.score ∧ a.time ≤ b.time)

instance soloBefore.instDecidableRel : DecidableRel soloBefore := by
  intro a b
  unfold soloBefore
  infer_instance

instance soloBefore.instIsTotal : IsTotal RankEntry soloBefore := by
  constructor
  intro a b
  rcases lt_trichotomy a.score b.score with h | h | h
  · exact Or.inr (Or.inl h)
  · rcases le_total a.time b.time with ht | ht
    · exact Or.inl (Or.inr ⟨h, ht⟩)
    · exact Or.inr (Or.inr ⟨h.symm, ht⟩)
  · exact Or.inl (Or.inl h)

instance soloBefore.instIsTrans : IsTrans RankEntry soloBefore := by
  constructor
  intro a b c hab hbc
  rcases hab with h1 | ⟨h1, h1t⟩
  · rcases hbc with h2 | ⟨h2, _⟩
    · exact Or.inl (h2.trans h1)
    · exact Or.inl (h2 ▸ h1)
  · rcases hbc with h2 | ⟨h2, h2t⟩
    · exact Or.inl (h1 ▸ h2)
    · exact Or.inr ⟨h1.trans h2, h1t.trans h2t⟩

/-- The stable sort of the 1v1 branch (a stable comparator sort, like
Array.prototype.sort with the score/time comparator). -/
def soloSorted (ps : List RankEntry) : List RankEntry :=
  List.insertionSort soloBefore ps

/-- One entry of the rankings array emitted with game_ended. -/
structure Ranking where
  place : Nat
  userId : Nat
  score : Int
  coinsAwarded : Int
deriving DecidableEq, Repr

/-- Coin award by zero-based index in the sorted list: two players
give 2 x entry to the winner only; otherwise the top three get
multipliers 3, 2, 1 and the rest get nothing. -/
def soloCoins (n : Nat) (entry : Int) (i : Nat) : Int :=
  if n = 2 then (if i = 0 then 2 * entry else 0)
  else if i = 0 then 3 * entry
  else if i = 1 then 2 * entry
  else if i = 2 then entry
  else 0

/-- Walk the sorted list assigning strict sequential places i + 1 and
the coin reward for index i. -/
def assignPlaces (entry : Int) (n : Nat) : Nat → List RankEntry → List Ranking
  | _, [] => []
  | i, p :: rest =>
    ⟨i + 1, p.userId, p.score, soloCoins n entry i⟩ ::
      assignPlaces entry n (i + 1) rest

/-- endGame, 1v1 branch: sort by (score DESC, points_updated_at ASC)
and assign places 1..N with the coin schedule. -/
def endGameSolo (entry : Int) (ps : List RankEntry) : List Ranking :=
  assignPlaces entry (soloSorted ps).length 0 (soloSorted ps)

theorem assignPlaces_map_place (entry : Int) (n : Nat) :
    ∀ (l : List RankEntry) (i : Nat),
      (assignPlaces entry n i l).map (·.place) =
        List.range' (i + 1) l.length := by
  intro l
  induction l with
  | nil =>
    intro i
    simp [assignPlaces, List.range']
  | cons p rest ih =>
    intro i
    simp [assignPlaces, List.range', ih, Nat.add_assoc, Nat.add_comm 1 1]

theorem assignPlaces_pairs (entry : Int) (n : Nat) :
    ∀ (l : List RankEntry) (i : Nat),
      (assignPlaces entry n i l).map (fun r => (r.userId, r.score)) =
        l.map (fun p => (p.userId, p.score)) := by
  intro l
  induction l with
  | nil => intro i; rfl
  | cons p rest ih =>
    intro i
    simp [assignPlaces, ih]

theorem assignPlaces_coins (entry : Int) (n : Nat) :
    ∀ (l : List RankEntry) (i : Nat), ∀ r ∈ assignPlaces entry n i l,
      1 ≤ r.place ∧ r.coinsAwarded = soloCoins n entry (r.place - 1) := by
  intro l
  induction l with
  | nil =>
    intro i r hr
    simp [assignPlaces] at hr
  | cons p rest ih =>
    intro i r hr
    rcases List.mem_cons.mp hr with rfl | hr
    · exact ⟨Nat.le_add_left 1 i, by simp⟩
    · exact ih (i + 1) r hr

theorem soloCoins_place (n : Nat) (entry : Int) (p : Nat) (hp : 1 ≤ p) :
    (n = 2 → soloCoins n entry (p - 1) =
      (if p = 1 then 2 * entry else 0)) ∧
    (3 ≤ n → soloCoins n entry (p - 1) =
      (if p = 1 then 3 * entry
       else if p = 2 then 2 * entry
       else if p = 3 then entry else 0)) := by
  constructor
  · intro hn
    subst hn
    unfold soloCoins
    rcases Nat.eq_or_lt_of_le hp with h1 | h1
    · simp [← h1]
    · have hne : ¬(p = 1) := by omega
      have hni : ¬(p - 1 = 0) := by omega
      simp [hne, hni]
  · intro hn
    have hn2 : ¬(n = 2) := by omega
    unfold soloCoins
    by_cases h1 : p = 1
    · simp [hn2, h1]
    · by_cases h2 : p = 2
      · have : ¬(p - 1 = 0) := by omega
        simp [hn2, h2, this]
      · by_cases h3 : p = 3
        · have e1 : ¬(p - 1 = 0) := by omega
          have e2 : ¬(p - 1 = 1) := by omega
          simp [hn2, h3, e1, e2]
        · have e1 : ¬(p - 1 = 0) := by omega
          have e2 : ¬(p - 1 = 1) := by omega
          have e3 : ¬(p - 1 = 2) := by omega
          simp [hn2, h1, h2, h3, e1, e2, e3]

/-- C8: the 1v1 game-end ranking sorts by score descending with
points_updated_at ascending as tie-break, assigns strictly unique
places 1..N, and awards coins: with exactly 2 players the winner gets
2 x entry and the loser 0; with 3 or more players places 1, 2, 3 get
3 x, 2 x, 1 x entry and everyone else 0. -/
theorem endGame_solo_ranking (entry : Int) (ps : List RankEntry) :
    ((endGameSolo entry ps).map (·.place) = List.range' 1 ps.length) ∧
    List.Sorted soloBefore (soloSorted ps) ∧
    (soloSorted ps).Perm ps ∧
    ((endGameSolo entry ps).map (fun r => (r.userId, r.score)) =
      (soloSorted ps).map (fun p => (p.userId, p.score))) ∧
    (∀ r ∈ endGameSolo entry ps,
      (ps.length = 2 →
        r.coinsAwarded = (if r.place = 1 then 2 * entry else 0)) ∧
      (3 ≤ ps.length →
        r.coinsAwarded =
          (if r.place = 1 then 3 * entry
           else if r.place = 2 then 2 * entry
           else if r.place = 3 then entry else 0))) := by
  have hlen : (soloSorted ps).length = ps.length :=
    (List.perm_insertionSort soloBefore ps).length_eq
  refine ⟨?_, List.sorted_insertionSort soloBefore ps,
    List.perm_insertionSort soloBefore ps, ?_, ?_⟩
  · rw [endGameSolo, assignPlaces_map_place, hlen]
  · rw [endGameSolo, assignPlaces_pairs]
  · intro r hr
    obtain ⟨hp, hc⟩ := assignPlaces_coins entry (soloSorted ps).length
      (soloSorted ps) 0 r hr
    obtain ⟨h2, h3⟩ := soloCoins_place (soloSorted ps).length entry r.place hp
    rw [hlen] at h2 h3
    exact ⟨fun hn => hc.trans (hlen ▸ h2 hn), fun hn => hc.trans (hlen ▸ h3 hn)⟩

/-- Witness for C8: three players with a score tie broken by the
earlier timestamp; places are 1, 2, 3 and coins are 750, 500, 250 for
entry cost 250. -/
theorem endGame_solo_ranking_witness :
    (endGameSolo 250 [⟨1, 60, 5⟩, ⟨2, 40, 3⟩, ⟨3, 40, 1⟩]).map (·.place) =
      [1, 2, 3] ∧
    endGameSolo 250 [⟨1, 60, 5⟩, ⟨2, 40, 3⟩, ⟨3, 40, 1⟩] =
      [⟨1, 1, 60, 750⟩, ⟨2, 3, 40, 500⟩, ⟨3, 2, 40, 250⟩] := by
  constructor
  · have h := (endGame_solo_ranking 250
      [⟨1, 60, 5⟩, ⟨2, 40, 3⟩, ⟨3, 40, 1⟩]).1
    rw [h]
    decide
  · decide

/-! The start_game entry deduction loop
(src/sockets/socket.js lines 1149 to 1206): the per-participant entry
charge loop that aborts on the first participant with too few coins,
without rolling back earlier charges. -/

/-- A user wallet row (users.coins). -/
structure Wallet where
  userId : Nat
  coins : Int
deriving DecidableEq, Repr

/-- A participant row as read by the start_game loop. -/
structure Entrant where
  userId : Nat
  hasPaidEntry : Bool
deriving DecidableEq, Repr

/-- User.findByPk. -/
def findWallet (users : List Wallet) (uid : Nat) : Option Wallet :=
  users.find? (fun w => w.userId == uid)

/-- user.coins -= entryCost; user.save(). -/
def chargeUser (users : List Wallet) (uid : Nat) (cost : Int) : List Wallet :=
  users.map (fun w =>
    if w.userId = uid then { w with coins := w.coins - cost } else w)

/-- participant.hasPaidEntry = true; participant.save(). -/
def markPaid (parts : List Entrant) (uid : Nat) : List Entrant :=
  parts.map (fun p =>
    if p.userId = uid then { p with hasPaidEntry := true } else p)

/-- The deduction loop: for each fetched participant, skip when the
user row is missing or the participant already paid; abort the whole
handler with insufficient_coins when the wallet holds less than the
entry cost; otherwise charge the wallet and mark the participant paid,
then continue. -/
def deductEntries (cost : Int) :
    List Entrant → List Wallet → List Entrant →
      Option String × List Wallet × List Entrant
  | [], users, parts => (none, users, parts)
  | p :: rest, users, parts =>
    match findWallet users p.userId with
    | none => deductEntries cost rest users parts
    | some u =>
      if p.hasPaidEntry then deductEntries cost rest users parts
      else if u.coins < cost then (some "insufficient_coins", users, parts)
      else deductEntries cost rest (chargeUser users p.userId cost)
        (markPaid parts p.userId)

/-- The start_game handler around the loop: on an abort the room
status is left as it was (lobby or waiting); only a completed loop
sets status playing. -/
structure StartGameResult where
  error : Option String
  users : List Wallet
  parts : List Entrant
  status : String
deriving DecidableEq, Repr

def startGameEntryLoop (cost : Int) (users : List Wallet)
    (parts : List Entrant) (status : String) : StartGameResult :=
  match deductEntries cost parts users parts with
  | (some e, us, psf) => ⟨some e, us, psf, status⟩
  | (none, us, psf) => ⟨none, us, psf, "playing"⟩

theorem findWallet_chargeUser_self (users : List Wallet) (uid : Nat)
    (cost : Int) (u : Wallet) (h : findWallet users uid = some u) :
    findWallet (chargeUser users uid cost) uid =
      some { u with coins := u.coins - cost } := by
  unfold findWallet chargeUser
  rw [find?_map_eq_map_find?
    (fun w => if w.userId = uid then { w with coins := w.coins - cost } else w)
    (fun w => w.userId == uid)
    (by
      intro a
      by_cases ha : a.userId = uid
      · simp [ha]
      · simp [ha])
    users]
  unfold findWallet at h
  rw [h, Option.map_some']
  have huid : u.userId = uid := by simpa using List.find?_some h
  simp [huid]

theorem findWallet_chargeUser_ne (users : List Wallet) (uid cid : Nat)
    (cost : Int) (hne : uid ≠ cid) :
    findWallet (chargeUser users cid cost) uid = findWallet users uid := by
  unfold findWallet chargeUser
  rw [find?_map_eq_map_find?
    (fun w => if w.userId = cid then { w with coins := w.coins - cost } else w)
    (fun w => w.userId == uid)
    (by
      intro a
      by_cases ha : a.userId = cid
      · simp [ha]
      · simp [ha])
    users]
  cases h : users.find? (fun w => w.userId == uid) with
  | none => rfl
  | some w =>
    have huid : w.userId = uid := by simpa using List.find?_some h
    rw [Option.map_some']
    have : ¬(w.userId = cid) := by
      rw [huid]
      exact hne
    simp [this]

theorem find?_markPaid (parts : List Entrant) (uid pid : Nat) :
    (markPaid parts pid).find? (fun x => x.userId == uid) =
      (parts.find? (fun x => x.userId == uid)).map
        (fun p => if p.userId = pid then { p with hasPaidEntry := true }
          else p) := by
  unfold markPaid
  apply find?_map_eq_map_find?
  intro a
  by_cases ha : a.userId = pid
  · simp [ha]
  · simp [ha]

theorem deductEntries_wallet_frame (cost : Int) :
    ∀ (queue : List Entrant) (users : List Wallet) (parts : List Entrant)
      (uid : Nat), (∀ p ∈ queue, p.userId ≠ uid) →
      findWallet (deductEntries cost queue users parts).2.1 uid =
        findWallet users uid := by
  intro queue
  induction queue with
  | nil => intro users parts uid _; rfl
  | cons p rest ih =>
    intro users parts uid hne
    have hp : p.userId ≠ uid := hne p (List.mem_cons_self p rest)
    have hrest : ∀ q ∈ rest, q.userId ≠ uid :=
      fun q hq => hne q (List.mem_cons_of_mem p hq)
    show findWallet (deductEntries cost (p :: rest) users parts).2.1 uid = _
    unfold deductEntries
    cases hfw : findWallet users p.userId with
    | none => exact ih users parts uid hrest
    | some u =>
      by_cases hpaid : p.hasPaidEntry
      · simp only [if_pos hpaid]
        exact ih users parts uid hrest
      · simp only [if_neg hpaid]
        by_cases hpoor : u.coins < cost
        · simp only [if_pos hpoor]
        · simp only [if_neg hpoor]
          rw [ih (chargeUser users p.userId cost) (markPaid parts p.userId)
            uid hrest]
          exact findWallet_chargeUser_ne users uid p.userId cost
            (fun h => hp h.symm)

theorem deductEntries_paid_frame (cost : Int) :
    ∀ (queue : List Entrant) (users : List Wallet) (parts : List Entrant)
      (uid : Nat),
      ((parts.find? (fun x => x.userId == uid)).map (·.hasPaidEntry) =
        some true) →
      (((deductEntries cost queue users parts).2.2.find?
          (fun x => x.userId == uid)).map (·.hasPaidEntry) = some true) := by
  intro queue
  induction queue with
  | nil => intro users parts uid h; exact h
  | cons p rest ih =>
    intro users parts uid h
    show (((deductEntries cost (p :: rest) users parts).2.2.find? _).map _) = _
    unfold deductEntries
    cases hfw : findWallet users p.userId with
    | none => exact ih users parts uid h
    | some u =>
      by_cases hpaid : p.hasPaidEntry
      · simp only [if_pos hpaid]
        exact ih users parts uid h
      · simp only [if_neg hpaid]
        by_cases hpoor : u.coins < cost
        · simp only [if_pos hpoor]
          exact h
        · simp only [if_neg hpoor]
          apply ih (chargeUser users p.userId cost) (markPaid parts p.userId)
          rw [find?_markPaid]
          cases hq : parts.find? (fun x => x.userId == uid) with
          | none => rw [hq] at h; exact absurd h (by simp)
          | some e =>
            rw [hq] at h
            rw [Option.map_some']
            by_cases he : e.userId = p.userId
            · simp [he]
            · simpa [he] using h

theorem deductEntries_abort (cost : Int) (bad : Entrant) (ubad : Wallet)
    (rest : List Entrant) (hbadunpaid : bad.hasPaidEntry = false)
    (hbadpoor : ubad.coins < cost) :
    ∀ (pre : List Entrant) (users : List Wallet) (parts : List Entrant),
      ((pre ++ bad :: rest).map (fun p => p.userId)).Nodup →
      (∀ p ∈ pre, p.hasPaidEntry = false →
        ∀ u, findWallet users p.userId = some u → cost ≤ u.coins) →
      findWallet users bad.userId = some ubad →
      (∀ p ∈ pre, p.hasPaidEntry = false →
        (parts.find? (fun x => x.userId == p.userId)).isSome) →
      (deductEntries cost (pre ++ bad :: rest) users parts).1 =
        some "insufficient_coins" ∧
      (∀ p ∈ pre, p.hasPaidEntry = false →
        ∀ u, findWallet users p.userId = some u →
          findWallet (deductEntries cost (pre ++ bad :: rest) users parts).2.1
              p.userId = some { u with coins := u.coins - cost } ∧
          (((deductEntries cost (pre ++ bad :: rest) users parts).2.2.find?
              (fun x => x.userId == p.userId)).map (·.hasPaidEntry) =
            some true)) := by
  intro pre
  induction pre with
  | nil =>
    intro users parts _ _ hbadw _
    constructor
    · show (deductEntries cost (bad :: rest) users parts).1 = _
      unfold deductEntries
      rw [hbadw]
      simp [hbadunpaid, hbadpoor]
    · intro p hp
      exact absurd hp (List.not_mem_nil p)
  | cons q pre' ih =>
    intro users parts hnodup hpre hbadw hparts
    have hqbad : q.userId ≠ bad.userId := by
      have h1 : q.userId ∉ ((pre' ++ bad :: rest).map (fun p => p.userId)) := by
        have := hnodup
        simp only [List.cons_append, List.map_cons, List.nodup_cons] at this
        exact this.1
      intro hc
      exact h1 (by
        rw [hc]
        simp)
    have hnodup' : ((pre' ++ bad :: rest).map (fun p => p.userId)).Nodup := by
      have := hnodup
      simp only [List.cons_append, List.map_cons, List.nodup_cons] at this
      exact this.2
    have hqrest : q.userId ∉ ((pre' ++ bad :: rest).map (fun p => p.userId)) := by
      have := hnodup
      simp only [List.cons_append, List.map_cons, List.nodup_cons] at this
      exact this.1
    simp only [List.cons_append]
    cases hfw : findWallet users q.userId with
    | none =>
      have heq := deductEntries.eq_def cost ((q :: pre') ++ bad :: rest)
        users parts
      simp only [List.cons_append, hfw] at heq
      rw [heq]
      have hmain := ih users parts hnodup'
        (fun p hp hunpaid u hu => hpre p (List.mem_cons_of_mem q hp) hunpaid u hu)
        hbadw
        (fun p hp hunpaid => hparts p (List.mem_cons_of_mem q hp) hunpaid)
      refine ⟨hmain.1, ?_⟩
      intro p hp hunpaid u hu
      rcases List.mem_cons.mp hp with rfl | hp'
      · rw [hfw] at hu
        exact absurd hu (by simp)
      · exact hmain.2 p hp' hunpaid u hu
    | some u =>
      by_cases hpaid : q.hasPaidEntry
      · have heq := deductEntries.eq_def cost ((q :: pre') ++ bad :: rest)
          users parts
        simp only [List.cons_append, hfw] at heq
        rw [if_pos hpaid] at heq
        rw [heq]
        have hmain := ih users parts hnodup'
          (fun p hp hunpaid u hu => hpre p (List.mem_cons_of_mem q hp) hunpaid u hu)
          hbadw
          (fun p hp hunpaid => hparts p (List.mem_cons_of_mem q hp) hunpaid)
        refine ⟨hmain.1, ?_⟩
        intro p hp hunpaid uu hu
        rcases List.mem_cons.mp hp with rfl | hp'
        · rw [hunpaid] at hpaid
          exact absurd hpaid (by simp)
        · exact hmain.2 p hp' hunpaid uu hu
      · have hq : cost ≤ u.coins :=
          hpre q (List.mem_cons_self q pre') (Bool.eq_false_iff.mpr hpaid) u hfw
        have hpoor : ¬(u.coins < cost) := not_lt.mpr hq
        have heq := deductEntries.eq_def cost ((q :: pre') ++ bad :: rest)
          users parts
        simp only [List.cons_append, hfw] at heq
        rw [if_neg hpaid, if_neg hpoor] at heq
        rw [heq]
        have hbadw' : findWallet (chargeUser users q.userId cost) bad.userId =
            some ubad := by
          rw [findWallet_chargeUser_ne users bad.userId q.userId cost
            (fun h => hqbad h.symm)]
          exact hbadw
        have hpre' : ∀ p ∈ pre', p.hasPaidEntry = false →
            ∀ uu, findWallet (chargeUser users q.userId cost) p.userId =
              some uu → cost ≤ uu.coins := by
          intro p hp hunpaid uu hu
          have hne : p.userId ≠ q.userId := by
            intro hc
            exact hqrest (by
              rw [← hc]
              simp [List.mem_append, List.mem_map]
              exact Or.inl ⟨p, hp, rfl⟩)
          rw [findWallet_chargeUser_ne users p.userId q.userId cost hne] at hu
          exact hpre p (List.mem_cons_of_mem q hp) hunpaid uu hu
        have hparts' : ∀ p ∈ pre', p.hasPaidEntry = false →
            ((markPaid parts q.userId).find?
              (fun x => x.userId == p.userId)).isSome := by
          intro p hp hunpaid
          rw [find?_markPaid]
          have := hparts p (List.mem_cons_of_mem q hp) hunpaid
          cases hh : parts.find? (fun x => x.userId == p.userId) with
          | none => rw [hh] at this; exact absurd this (by simp)
          | some e => simp
        have hmain := ih (chargeUser users q.userId cost)
          (markPaid parts q.userId) hnodup' hpre' hbadw' hparts'
        refine ⟨hmain.1, ?_⟩
        intro p hp hunpaid uu hu
        rcases List.mem_cons.mp hp with rfl | hp'
        · rw [hfw] at hu
          have huu : uu = u := by
            injection hu with hh
            exact hh.symm
          subst huu
          constructor
          · rw [deductEntries_wallet_frame cost (pre' ++ bad :: rest)
              (chargeUser users p.userId cost) (markPaid parts p.userId)
              p.userId
              (by
                intro x hx hc
                exact hqrest (by
                  rw [← hc]
                  exact List.mem_map.mpr ⟨x, hx, rfl⟩))]
            exact findWallet_chargeUser_self users p.userId cost uu hfw
          · apply deductEntries_paid_frame
            rw [find?_markPaid]
            have hsome := hparts p (List.mem_cons_self p pre') hunpaid
            cases hh : parts.find? (fun x => x.userId == p.userId) with
            | none => rw [hh] at hsome; exact absurd hsome (by simp)
            | some e =>
              have heid : e.userId = p.userId := by
                simpa using List.find?_some hh
              simp [heid]
        · have hne : p.userId ≠ q.userId := by
            intro hc
            exact hqrest (by
              rw [← hc]
              simp [List.mem_append, List.mem_map]
              exact Or.inl ⟨p, hp', rfl⟩)
          have hu' : findWallet (chargeUser users q.userId cost) p.userId =
              some uu := by
            rw [findWallet_chargeUser_ne users p.userId q.userId cost hne]
            exact hu
          exact hmain.2 p hp' hunpaid uu hu'

/-- C10: when start_game aborts with insufficient_coins at the first
not-yet-paid participant whose wallet is below the entry cost, the
charges already applied to earlier participants in the same call are
kept (reduced balance and hasPaidEntry true), and the room status is
left as it was (lobby or waiting), not playing. -/
theorem startGame_insufficient_no_rollback
    (cost : Int) (status : String) (users : List Wallet)
    (pre : List Entrant) (bad : Entrant) (rest : List Entrant) (ubad : Wallet)
    (hnodup : ((pre ++ bad :: rest).map (fun p => p.userId)).Nodup)
    (hpre : ∀ p ∈ pre, p.hasPaidEntry = false →
      ∀ u, findWallet users p.userId = some u → cost ≤ u.coins)
    (hbadunpaid : bad.hasPaidEntry = false)
    (hbadwallet : findWallet users bad.userId = some ubad)
    (hbadpoor : ubad.coins < cost) :
    (startGameEntryLoop cost users (pre ++ bad :: rest) status).error =
      some "insufficient_coins" ∧
    (startGameEntryLoop cost users (pre ++ bad :: rest) status).status =
      status ∧
    (∀ p ∈ pre, p.hasPaidEntry = false →
      ∀ u, findWallet users p.userId = some u →
        findWallet (startGameEntryLoop cost users (pre ++ bad :: rest)
            status).users p.userId = some { u with coins := u.coins - cost } ∧
        (((startGameEntryLoop cost users (pre ++ bad :: rest) status).parts.find?
            (fun x => x.userId == p.userId)).map (·.hasPaidEntry) =
          some true)) := by
  have hparts : ∀ p ∈ pre, p.hasPaidEntry = false →
      ((pre ++ bad :: rest).find? (fun x => x.userId == p.userId)).isSome := by
    intro p hp _
    rw [List.find?_isSome]
    exact ⟨p, List.mem_append_left _ hp, by simp⟩
  have hmain := deductEntries_abort cost bad ubad rest hbadunpaid hbadpoor
    pre users (pre ++ bad :: rest) hnodup hpre hbadwallet hparts
  have hloop : startGameEntryLoop cost users (pre ++ bad :: rest) status =
      ⟨some "insufficient_coins",
        (deductEntries cost (pre ++ bad :: rest) users
          (pre ++ bad :: rest)).2.1,
        (deductEntries cost (pre ++ bad :: rest) users
          (pre ++ bad :: rest)).2.2, status⟩ := by
    unfold startGameEntryLoop
    have h1 := hmain.1
    cases hd : deductEntries cost (pre ++ bad :: rest) users
        (pre ++ bad :: rest) with
    | mk e up =>
      rw [hd] at h1
      cases up with
      | mk us psf =>
        simp only at h1
        rw [h1]
  rw [hloop]
  exact ⟨rfl, rfl, fun p hp hunpaid u hu =>
    hmain.2 p hp hunpaid u hu⟩

/-- Witness for C10: users 1 and 2 hold 300 and 100 coins, entry costs
250; user 1 is charged (300 to 50, marked paid) before the loop aborts
on user 2, and the charge is kept while the room stays in lobby. -/
theorem startGame_insufficient_no_rollback_witness :
    (startGameEntryLoop 250 [⟨1, 300⟩, ⟨2, 100⟩]
        [⟨1, false⟩, ⟨2, false⟩] "lobby").error = some "insufficient_coins" ∧
    (startGameEntryLoop 250 [⟨1, 300⟩, ⟨2, 100⟩]
        [⟨1, false⟩, ⟨2, false⟩] "lobby").status = "lobby" ∧
    findWallet (startGameEntryLoop 250 [⟨1, 300⟩, ⟨2, 100⟩]
        [⟨1, false⟩, ⟨2, false⟩] "lobby").users 1 = some ⟨1, 300 - 250⟩ ∧
    ((startGameEntryLoop 250 [⟨1, 300⟩, ⟨2, 100⟩]
        [⟨1, false⟩, ⟨2, false⟩] "lobby").parts.find?
          (fun x => x.userId == 1)).map (·.hasPaidEntry) = some true := by
  have h := startGame_insufficient_no_rollback 250 "lobby"
    [⟨1, 300⟩, ⟨2, 100⟩] [⟨1, false⟩] ⟨2, false⟩ [] ⟨2, 100⟩
    (by decide) (by decide) rfl rfl (by decide)
  have hp := h.2.2 ⟨1, false⟩ (by decide) rfl ⟨1, 300⟩ rfl
  exact ⟨h.1, h.2.1, hp.1, hp.2⟩

end InkBattle
